import Mathlib

/-
Verification of the zstd-dict repository: a zstd compression codec with
optional pre-trained dictionary support (package zstddict), a gRPC
compressor adapter with encoder/decoder pooling (package grpccodec), and
a bandwidth break-even analyzer (cmd/analyze).

Byte buffers are modelled as `List Nat`.  The external compression engine
(github.com/klauspost/compress/zstd) is not among the sources of this repository; where a claim depends on it, the engine is modelled from the
spec, with each such definition marked `Modelled from the spec:` in its
doc comment.  Everything else is translated directly from the Go sources.
-/

namespace ZstdDict

/-- Error taxonomy of the system (spec section 7): configuration errors
(malformed dictionary, degenerate training corpus), corruption errors
(invalid frame), and dictionary-mismatch errors. -/
inductive ZErr where
  | configuration
  | corruption
  | dictionaryMismatch
  deriving DecidableEq, Repr

/-- Modelled from the spec: the zstd dictionary-format magic bytes
(0xEC30A437 little-endian), which the external engine requires at the
start of any dictionary passed to `WithEncoderDict`/`WithDecoderDicts`. -/
def zstdDictMagic : List Nat := [55, 164, 48, 236]

/-- Modelled from the spec: engine construction fails exactly on malformed
dictionary bytes ("only a true construction failure (malformed dictionary
bytes) escalates to ConfigurationError").  A dictionary is well formed when
it is at least 8 bytes and starts with the dictionary magic; the absent
dictionary (Go `nil`) is always acceptable. -/
def dictOK : Option (List Nat) → Bool
  | none => true
  | some d => decide (8 ≤ d.length) && decide (d.take 4 = zstdDictMagic)

/-- Length of the longest common prefix of two byte lists. -/
def commonPrefixLen : List Nat → List Nat → Nat
  | a :: as, b :: bs => if a = b then commonPrefixLen as bs + 1 else 0
  | _, _ => 0

/-- Modelled from the spec: the body encoding of the external engine.  The
spec treats the engine as an opaque compressor whose dictionary "primes a
compression engine with common substrings" (glossary); the model encodes a
buffer as the length of its longest prefix shared with the dictionary
followed by the remaining literal bytes. -/
def encodeBody (dict data : List Nat) : List Nat :=
  commonPrefixLen dict data :: data.drop (commonPrefixLen dict data)

/-- Modelled from the spec: body decoding, inverse of `encodeBody`; a
truncated or out-of-range body is a corruption error ("decompression input
is not a valid frame, or is truncated"). -/
def decodeBody (dict : List Nat) : List Nat → Except ZErr (List Nat)
  | [] => .error .corruption
  | m :: rest => if m ≤ dict.length then .ok (dict.take m ++ rest) else .error .corruption

/-- Modelled from the spec: "Frame: the self-describing compressed output
unit, which may encode a dictionary identifier used for mismatch
detection" (glossary).  `dictTag` identifies the dictionary the frame was
produced with (`none` for dictionary-free frames); `conc` records the
concurrency-dependent framing, since compressed output is "not guaranteed
byte-identical across different concurrency settings". -/
structure Frame where
  dictTag : Option (List Nat)
  conc : Nat
  payload : List Nat
  deriving DecidableEq, Repr

/-- A zstd encoder instance: bound dictionary (nullable) and the
concurrency it was constructed with. -/
structure Encoder where
  dict : Option (List Nat)
  conc : Nat
  deriving DecidableEq, Repr

/-- A zstd decoder instance: the registered dictionary (nullable). -/
structure Decoder where
  dict : Option (List Nat)
  deriving DecidableEq, Repr

/-- Model of the runtime default encoder concurrency (GOMAXPROCS), used
when no explicit concurrency option is passed to the engine constructor. -/
def goMaxProcs : Nat := 8

/-- Modelled from the spec: `zstd.NewWriter` — constructs an encoder bound
to the given dictionary and concurrency, failing on malformed dictionary
bytes. -/
def newWriter (dict : Option (List Nat)) (conc : Nat) : Option Encoder :=
  if dictOK dict then some ⟨dict, conc⟩ else none

/-- Modelled from the spec: `zstd.NewReader` — constructs a decoder with
the given registered dictionary, failing on malformed dictionary bytes. -/
def newReader (dict : Option (List Nat)) : Option Decoder :=
  if dictOK dict then some ⟨dict⟩ else none

/-- Modelled from the spec: `Encoder.EncodeAll` — one-shot compression; the
produced frame identifies the dictionary and concurrency of the encoder. -/
def Encoder.encodeAll (e : Encoder) (data : List Nat) : Frame :=
  ⟨e.dict, e.conc, encodeBody (e.dict.getD []) data⟩

/-- Modelled from the spec: `Decoder.DecodeAll` — the dictionary identifier
of the frame is checked against the registered dictionary of the decoder before
the payload is interpreted; a frame that identifies a different dictionary
(or one when none is registered) is rejected with a mismatch error. -/
def Decoder.decodeAll (dec : Decoder) (f : Frame) : Except ZErr (List Nat) :=
  match f.dictTag with
  | none => decodeBody [] f.payload
  | some a =>
      match dec.dict with
      | none => .error .dictionaryMismatch
      | some b => if a = b then decodeBody b f.payload else .error .dictionaryMismatch

/-- Outcome of a Go call that can return a value, return an error, or
panic.  `panicked` models a runtime panic: in the source, the pool `New`
returns a nil interface on construction failure and the single-value type
assertion `Get().(*zstd.Encoder)` / `Get().(*zstd.Decoder)` panics on that
nil interface before any nil guard runs, so construction failure crashes
the call instead of reaching the error-return branches. -/
inductive GoOutcome (α : Type) where
  | ok (val : α)
  | error (e : ZErr)
  | panicked
  deriving DecidableEq, Repr

/-- Lift an engine result (which returns values and errors, never panics)
into a call outcome. -/
def GoOutcome.ofExcept {α : Type} : Except ZErr α → GoOutcome α
  | .ok v => .ok v
  | .error e => .error e

/-! ## The zstddict Compressor (package zstddict, Compressor source file)

`Compressor` holds a nullable dictionary and two `sync.Pool`s of engine
instances.  A `sync.Pool` is modelled explicitly: its stored items are a
list, and `Get` pops an available item or, when the pool is empty, invokes
the `New` constructor of the pool (which yields `none` exactly when engine
construction fails).  `Put` appends the instance back.  Each operation
threads the relevant pool state and returns the updated pool alongside the
Go return values, so the deferred `Put` on every exit path is explicit. -/

/-- `sync.Pool.Get`: pop an available instance, or on a pool miss invoke
the constructor `mkNew` (a miss is never an error by itself; `none` from
`mkNew` means construction failed). -/
def poolGet {α : Type} (pool : List α) (mkNew : Option α) : Option α × List α :=
  match pool with
  | x :: rest => (some x, rest)
  | [] => (mkNew, [])

/-- The zstddict Compressor: a nullable dictionary (`WithDictBytes` sets
it; `New` itself never validates the bytes — construction happens lazily
inside the pools). -/
structure Compressor where
  dict : Option (List Nat)
  deriving DecidableEq, Repr

/-- `zstddict.New` with an optional `WithDictBytes` option applied. -/
def New (dict : Option (List Nat)) : Compressor := ⟨dict⟩

/-- The `New` constructor of the encoder pool installed by `zstddict.New`:
`zstd.NewWriter(nil, WithEncoderDict(dict))` when a dictionary is set,
plain `zstd.NewWriter(nil)` otherwise; no concurrency option is passed,
so the runtime default applies. -/
def Compressor.newPoolEncoder (c : Compressor) : Option Encoder :=
  newWriter c.dict goMaxProcs

/-- The `New` constructor of the decoder pool installed by `zstddict.New`. -/
def Compressor.newPoolDecoder (c : Compressor) : Option Decoder :=
  newReader c.dict

/-- `Compressor.Compress`: `encoderPool.Get().(*zstd.Encoder)`, then
`EncodeAll`, returning the instance to the pool (`defer Put`).  When the
pool constructor failed, `Get` yields a nil interface and the type
assertion panics before the `enc == nil` guard, whose error return is dead
code — modelled as `panicked`. -/
def Compressor.Compress (c : Compressor) (pool : List Encoder) (data : List Nat) :
    GoOutcome Frame × List Encoder :=
  match poolGet pool c.newPoolEncoder with
  | (none, rest) => (.panicked, rest)
  | (some e, rest) => (.ok (e.encodeAll data), rest ++ [e])

/-- `Compressor.Decompress`: `decoderPool.Get().(*zstd.Decoder)`, then
`DecodeAll`, returning the instance to the pool (`defer Put` runs on both
the success and the error path).  As in `Compress`, the type assertion
panics on a nil interface from a failed constructor before the nil guard,
whose error return is dead code. -/
def Compressor.Decompress (c : Compressor) (pool : List Decoder) (f : Frame) :
    GoOutcome (List Nat) × List Decoder :=
  match poolGet pool c.newPoolDecoder with
  | (none, rest) => (.panicked, rest)
  | (some dec, rest) => (GoOutcome.ofExcept (dec.decodeAll f), rest ++ [dec])

/-- A well-formed encoder pool for a compressor: every pooled instance is
bound to the dictionary of this compressor (pool instances are only ever
created by the constructor of this pool and returned after use, per the
data-model invariant "an instance bound to dictionary D must only ever be
reused for operations against D"). -/
def encPoolWF (d : Option (List Nat)) (pool : List Encoder) : Prop :=
  ∀ e ∈ pool, e.dict = d

/-- A well-formed decoder pool for a compressor. -/
def decPoolWF (d : Option (List Nat)) (pool : List Decoder) : Prop :=
  ∀ x ∈ pool, x.dict = d

/-! ## The gRPC codec adapter (package grpccodec, src/grpccodec/zstd.go)

`Zstd` implements the gRPC `encoding.Compressor` interface: a stable name
("zstd" or "zstd-dict"), a nullable dictionary, and encoder/decoder pools.
Its pooled encoder constructor pins `WithEncoderConcurrency(1)`; the
in-`Compress` fallback constructor (taken only when the pooled constructor
already failed) passes no concurrency option. -/

/-- Compressor name for plain zstd compression. -/
def NameZstd : String := "zstd"

/-- Compressor name for dictionary-enhanced zstd compression. -/
def NameZstdDict : String := "zstd-dict"

/-- The gRPC zstd codec: name, nullable dictionary, pools. -/
structure Zstd where
  name : String
  dict : Option (List Nat)
  deriving DecidableEq, Repr

/-- `grpccodec.NewZstd`: plain codec, registered under "zstd". -/
def NewZstd : Zstd := ⟨NameZstd, none⟩

/-- `grpccodec.NewZstdDict`: dictionary-bound codec, registered under
"zstd-dict". -/
def NewZstdDict (d : List Nat) : Zstd := ⟨NameZstdDict, some d⟩

/-- The `New` constructor of the encoder pool from `Zstd.initPools`: both the
dictionary and the plain branch pass `WithEncoderConcurrency(1)`. -/
def Zstd.poolNewEncoder (z : Zstd) : Option Encoder :=
  newWriter z.dict 1

/-- `Zstd.Compress` up to returning the `io.WriteCloser`: it runs
`encoderPool.Get().(*zstd.Encoder)` and wraps the encoder as a
`pooledEncoder` (whose `Close` puts the instance back).  When the pool
constructor failed, `Get` yields a nil interface and the type assertion
panics before the `enc == nil` guard, so the in-function fallback
constructor and its error return are dead code — modelled as `panicked`. -/
def Zstd.CompressAcquire (z : Zstd) (pool : List Encoder) :
    GoOutcome (Encoder × List Encoder) :=
  match poolGet pool z.poolNewEncoder with
  | (some e, rest) => .ok (e, rest)
  | (none, _) => .panicked

/-- One-shot use of the streaming compressor, as a gRPC call does: acquire
the writer via `Zstd.Compress`, write all message bytes, `Close` (which
returns the pool-wrapped instance to the pool). -/
def Zstd.compressBytes (z : Zstd) (pool : List Encoder) (data : List Nat) :
    GoOutcome (Frame × List Encoder) :=
  match z.CompressAcquire pool with
  | .ok (e, rest) => .ok (e.encodeAll data, rest ++ [e])
  | .error e => .error e
  | .panicked => .panicked

/-- Outcome classification of a single `Read` on the underlying stream:
`none` means no error, `some eof` is `io.EOF`, `some (other k)` is any
other read error. -/
inductive ReadErr where
  | eof
  | other (code : Nat)
  deriving DecidableEq, Repr

/-- `pooledDecoder.Read` (src/grpccodec/zstd.go): forward the underlying
read result `(n, err)` of the underlying decoder and, exactly when `err == io.EOF`, return
the decoder instance to the pool. -/
def pooledDecoderRead (n : Nat) (err : Option ReadErr) (dec : Decoder)
    (pool : List Decoder) : (Nat × Option ReadErr) × List Decoder :=
  ((n, err), if err = some ReadErr.eof then pool ++ [dec] else pool)

/-! ## The break-even analyzer (src/cmd/analyze/main.go)

`calculateBreakeven` walks the test messages in order, accumulating the
signed per-message savings `len(plain) - len(withDict)`, and returns
`i + 1` at the first message where the cumulative savings reach the
dictionary cost, or `-1` when the loop finishes without reaching it.
Messages are an abstract type `α`; the two compressed sizes of a message
are given by the functions `plainSize` (dictionary-free codec) and
`dictSize` (dictionary-bound codec). -/

/-- The loop of `calculateBreakeven`: remaining samples, the running
`cumulativeSavings`, and the index `i` of messages already consumed. -/
def breakevenGo {α : Type} (dictCost : Int) (plainSize dictSize : α → Nat) :
    List α → Int → Nat → Int
  | [], _, _ => -1
  | s :: rest, cum, i =>
      let cum' := cum + ((plainSize s : Int) - (dictSize s : Int))
      if dictCost ≤ cum' then ((i + 1 : Nat) : Int)
      else breakevenGo dictCost plainSize dictSize rest cum' (i + 1)

/-- `calculateBreakeven` (and the identical `calculateBreakevenPoint` of
the realistic-scenario analyzer): dictionary cost is the dictionary byte
length; returns the 1-based break-even message count or -1. -/
def calculateBreakeven {α : Type} (dictCost : Nat) (plainSize dictSize : α → Nat)
    (samples : List α) : Int :=
  breakevenGo (dictCost : Int) plainSize dictSize samples 0 0

/-- Cumulative signed savings over a message sequence: the sum of
`plainSize msg - dictSize msg` as signed integers, exactly the quantity
the `cumulativeSavings` accumulator of the analyzer tracks. -/
def cumSavings {α : Type} (plainSize dictSize : α → Nat) (samples : List α) : Int :=
  samples.foldl (fun acc s => acc + ((plainSize s : Int) - (dictSize s : Int))) 0

/-- The running totals of the analyzer main loop. -/
structure Totals where
  totalUncompressed : Int
  totalGzip : Int
  totalZstd : Int
  totalZstdDict : Int
  deriving DecidableEq, Repr

/-- One iteration of the analyzer measurement loop: add the raw sample
length and its gzip / plain zstd / dictionary-zstd compressed lengths to
the running totals.  The three compressed sizes are supplied as functions
of the sample. -/
def stepTotals (gzipLen plainLen dictLen : List Nat → Nat) (t : Totals)
    (s : List Nat) : Totals :=
  ⟨t.totalUncompressed + (s.length : Int),
   t.totalGzip + (gzipLen s : Int),
   t.totalZstd + (plainLen s : Int),
   t.totalZstdDict + (dictLen s : Int)⟩

/-- The analyzer measurement loop over a message sequence, starting from
zero totals. -/
def runTotals (gzipLen plainLen dictLen : List Nat → Nat)
    (samples : List (List Nat)) : Totals :=
  samples.foldl (stepTotals gzipLen plainLen dictLen) ⟨0, 0, 0, 0⟩

/-! ## Dictionary training (src/zstddict/train.go) -/

/-- `zstddict.TrainDictOptions`: maximum dictionary size (0 means the
32 KiB default), optional stable ID, target encoder level. -/
structure TrainDictOptions where
  MaxDictSize : Nat
  ID : Nat
  Level : Nat
  deriving DecidableEq, Repr

/-- Modelled from the spec: the minimum sample count below which the
external trainer rejects a corpus ("a dictionary trained on too few
samples is meaningless and the system must reject such inputs"); the
testable property of the spec has 9 samples failing, and the repository CLI
requires at least 10 samples. -/
def minTrainingSamples : Nat := 10

/-- Modelled from the spec: the external trainer `dict.BuildZstdDict`
(github.com/klauspost/compress/dict, not part of this repository).  It
fails on a corpus below the minimum sample count and otherwise produces a
dictionary — modelled as the dictionary magic followed by corpus-derived
content, truncated to the configured maximum size. -/
def buildZstdDict (samples : List (List Nat)) (maxDictSize : Nat) :
    Except ZErr (List Nat) :=
  if samples.length < minTrainingSamples then .error .configuration
  else .ok ((zstdDictMagic ++ samples.foldr (fun s acc => s ++ acc) []).take maxDictSize)

/-- `zstddict.TrainDict`: reject an empty sample list with an error;
otherwise apply the configured maximum size (positive `MaxDictSize` from
the options, else the 32 KiB default) and forward to the external
trainer. -/
def TrainDict (samples : List (List Nat)) (opts : Option TrainDictOptions) :
    Except ZErr (List Nat) :=
  if samples.length = 0 then .error .configuration
  else
    buildZstdDict samples
      (match opts with
       | some o => if 0 < o.MaxDictSize then o.MaxDictSize else 32 * 1024
       | none => 32 * 1024)

/-- A concrete well-formed dictionary (magic plus four content bytes),
used in witnesses. -/
def goodDictA : List Nat := zstdDictMagic ++ [0, 0, 0, 1]

/-- A second, different concrete well-formed dictionary. -/
def goodDictB : List Nat := zstdDictMagic ++ [0, 0, 0, 2]

/-! ## Engine round-trip lemmas -/

lemma commonPrefixLen_le_left : ∀ d b : List Nat, commonPrefixLen d b ≤ d.length := by
  intro d
  induction d with
  | nil => intro b; cases b <;> simp [commonPrefixLen]
  | cons a as ih =>
      intro b
      cases b with
      | nil => simp [commonPrefixLen]
      | cons x xs =>
          by_cases h : a = x
          · simpa [commonPrefixLen, h] using ih xs
          · simp [commonPrefixLen, h]

lemma take_commonPrefixLen : ∀ d b : List Nat,
    d.take (commonPrefixLen d b) = b.take (commonPrefixLen d b) := by
  intro d
  induction d with
  | nil => intro b; cases b <;> simp [commonPrefixLen]
  | cons a as ih =>
      intro b
      cases b with
      | nil => simp [commonPrefixLen]
      | cons x xs =>
          by_cases h : a = x
          · simp [commonPrefixLen, h, ih xs]
          · simp [commonPrefixLen, h]

lemma decodeBody_encodeBody (d b : List Nat) :
    decodeBody d (encodeBody d b) = .ok b := by
  have hle := commonPrefixLen_le_left d b
  simp only [encodeBody, decodeBody, if_pos hle]
  rw [take_commonPrefixLen]
  simp [List.take_append_drop]

lemma decodeAll_encodeAll (d : Option (List Nat)) (cc : Nat) (b : List Nat) :
    Decoder.decodeAll ⟨d⟩ (Encoder.encodeAll ⟨d, cc⟩ b) = .ok b := by
  cases d with
  | none => simp [Decoder.decodeAll, Encoder.encodeAll, decodeBody_encodeBody]
  | some a => simp [Decoder.decodeAll, Encoder.encodeAll, decodeBody_encodeBody]

/-! ## Compressor and codec lemmas -/

lemma compress_ok (d : Option (List Nat)) (pool : List Encoder) (b : List Nat)
    (hd : dictOK d = true) (hp : encPoolWF d pool) :
    ∃ cc rest, Compressor.Compress ⟨d⟩ pool b
      = (.ok (Encoder.encodeAll ⟨d, cc⟩ b), rest) := by
  cases pool with
  | nil =>
      refine ⟨goMaxProcs, [⟨d, goMaxProcs⟩], ?_⟩
      simp [Compressor.Compress, poolGet, Compressor.newPoolEncoder, newWriter, hd]
  | cons e rest =>
      have he : e.dict = d := hp e (by simp)
      refine ⟨e.conc, rest ++ [e], ?_⟩
      have : e = ⟨d, e.conc⟩ := by cases e; simpa using he
      simp [Compressor.Compress, poolGet, ← this]

lemma decompress_gets (d : Option (List Nat)) (pool : List Decoder) (f : Frame)
    (hd : dictOK d = true) (hp : decPoolWF d pool) :
    ∃ rest, Compressor.Decompress ⟨d⟩ pool f
      = (GoOutcome.ofExcept (Decoder.decodeAll ⟨d⟩ f), rest) := by
  cases pool with
  | nil =>
      refine ⟨[⟨d⟩], ?_⟩
      simp [Compressor.Decompress, poolGet, Compressor.newPoolDecoder, newReader, hd]
  | cons x rest =>
      have hx : x.dict = d := hp x (by simp)
      refine ⟨rest ++ [x], ?_⟩
      have : x = ⟨d⟩ := by cases x; simpa using hx
      simp [Compressor.Decompress, poolGet, ← this]

lemma zstd_compressBytes_wf (d : List Nat) (b : List Nat) (p : List Encoder)
    (hd : dictOK (some d) = true)
    (hp : ∀ e ∈ p, e.dict = some d ∧ e.conc = 1) :
    ∃ rest, Zstd.compressBytes (NewZstdDict d) p b
      = .ok (Encoder.encodeAll ⟨some d, 1⟩ b, rest) := by
  cases p with
  | nil =>
      refine ⟨[⟨some d, 1⟩], ?_⟩
      simp [Zstd.compressBytes, Zstd.CompressAcquire, poolGet, Zstd.poolNewEncoder,
        newWriter, NewZstdDict, hd]
  | cons e rest =>
      obtain ⟨h1, h2⟩ := hp e (by simp)
      have he : e = ⟨some d, 1⟩ := by cases e; simp_all
      subst he
      refine ⟨rest ++ [⟨some d, 1⟩], ?_⟩
      simp [Zstd.compressBytes, Zstd.CompressAcquire, poolGet, NewZstdDict]

/-! ## Analyzer lemmas -/

lemma foldl_savings_shift {α : Type} (f g : α → Nat) :
    ∀ (l : List α) (a : Int),
      l.foldl (fun acc s => acc + ((f s : Int) - (g s : Int))) a
        = a + l.foldl (fun acc s => acc + ((f s : Int) - (g s : Int))) 0 := by
  intro l
  induction l with
  | nil => intro a; simp
  | cons s t ih =>
      intro a
      simp only [List.foldl_cons]
      rw [ih (a + ((f s : Int) - (g s : Int))), ih (0 + ((f s : Int) - (g s : Int)))]
      ring

lemma cumSavings_nil {α : Type} (f g : α → Nat) : cumSavings f g ([] : List α) = 0 := rfl

lemma cumSavings_cons {α : Type} (f g : α → Nat) (s : α) (t : List α) :
    cumSavings f g (s :: t) = ((f s : Int) - (g s : Int)) + cumSavings f g t := by
  simp only [cumSavings, List.foldl_cons]
  rw [foldl_savings_shift]
  ring

/-- Full characterization of the break-even loop: starting from running
savings `cum` with `i` messages already consumed, it either reports -1 and
no evaluated prefix reaches the threshold, or it reports the count of the
first prefix that does. -/
lemma breakevenGo_spec {α : Type} (cost : Int) (f g : α → Nat) :
    ∀ (l : List α) (cum : Int) (i : Nat),
      (breakevenGo cost f g l cum i = -1 ∧
        ∀ k, 1 ≤ k → k ≤ l.length → cum + cumSavings f g (l.take k) < cost) ∨
      (∃ k, 1 ≤ k ∧ k ≤ l.length ∧
        breakevenGo cost f g l cum i = ((i + k : Nat) : Int) ∧
        cost ≤ cum + cumSavings f g (l.take k) ∧
        ∀ j, 1 ≤ j → j < k → cum + cumSavings f g (l.take j) < cost) := by
  intro l
  induction l with
  | nil =>
      intro cum i
      left
      refine ⟨rfl, ?_⟩
      intro k hk1 hk2
      simp only [List.length_nil] at hk2
      exact absurd hk1 (by omega)
  | cons s t ih =>
      intro cum i
      by_cases hc : cost ≤ cum + ((f s : Int) - (g s : Int))
      · right
        refine ⟨1, le_refl 1, by simp, ?_, ?_, ?_⟩
        · simp [breakevenGo, hc]
        · simpa [cumSavings_cons, cumSavings_nil] using hc
        · intro j hj1 hj2
          exact absurd hj1 (by omega)
      · have hlt : cum + ((f s : Int) - (g s : Int)) < cost := not_le.mp hc
        have hgo : breakevenGo cost f g (s :: t) cum i
            = breakevenGo cost f g t (cum + ((f s : Int) - (g s : Int))) (i + 1) := by
          simp [breakevenGo, hc]
        rcases ih (cum + ((f s : Int) - (g s : Int))) (i + 1)
          with ⟨h1, h2⟩ | ⟨k, hk1, hk2, hk3, hk4, hk5⟩
        · left
          refine ⟨by rw [hgo]; exact h1, ?_⟩
          intro k hk1 hk2
          rcases k with _ | k
          · exact absurd hk1 (by omega)
          rcases k with _ | j
          · simpa [cumSavings_cons, cumSavings_nil] using hlt
          · have h3 := h2 (j + 1) (by omega)
              (by simp only [List.length_cons] at hk2; omega)
            rw [show ((s :: t).take (j + 2)) = s :: t.take (j + 1) from rfl,
              cumSavings_cons]
            linarith
        · right
          refine ⟨k + 1, by omega, by simp only [List.length_cons]; omega, ?_, ?_, ?_⟩
          · have harith : i + 1 + k = i + (k + 1) := by omega
            rw [hgo, hk3, harith]
          · rw [show ((s :: t).take (k + 1)) = s :: t.take k from rfl, cumSavings_cons]
            linarith
          · intro j hj1 hj2
            rcases j with _ | j
            · exact absurd hj1 (by omega)
            rcases j with _ | m
            · simpa [cumSavings_cons, cumSavings_nil] using hlt
            · have h5 := hk5 (m + 1) (by omega) (by omega)
              rw [show ((s :: t).take (m + 2)) = s :: t.take (m + 1) from rfl,
                cumSavings_cons]
              linarith

/-! ## Claim theorems -/

/-- C3: for every message sequence and dictionary cost, the break-even
computation returns the smallest prefix length k (1-based) whose
cumulative signed savings reach the dictionary byte size, and returns the
no-break-even sentinel -1 when no evaluated prefix reaches it. -/
theorem breakeven_first_threshold {α : Type} (dictCost : Nat)
    (plainSize dictSize : α → Nat) (samples : List α) :
    (calculateBreakeven dictCost plainSize dictSize samples = -1 ∧
      ∀ k, 1 ≤ k → k ≤ samples.length →
        cumSavings plainSize dictSize (samples.take k) < (dictCost : Int)) ∨
    (∃ k, 1 ≤ k ∧ k ≤ samples.length ∧
      calculateBreakeven dictCost plainSize dictSize samples = (k : Int) ∧
      (dictCost : Int) ≤ cumSavings plainSize dictSize (samples.take k) ∧
      ∀ j, 1 ≤ j → j < k →
        cumSavings plainSize dictSize (samples.take j) < (dictCost : Int)) := by
  rcases breakevenGo_spec (dictCost : Int) plainSize dictSize samples 0 0
    with ⟨h1, h2⟩ | ⟨k, hk1, hk2, hk3, hk4, hk5⟩
  · exact Or.inl ⟨h1, fun k a b => by simpa using h2 k a b⟩
  · refine Or.inr ⟨k, hk1, hk2, by simpa [calculateBreakeven] using hk3,
      by simpa using hk4, fun j a b => by simpa using hk5 j a b⟩

/-- Witness for C3: on the single message of plain size 2, dictionary
size 1 and dictionary cost 1, the break-even computation reports 1. -/
theorem breakeven_first_threshold_witness :
    calculateBreakeven 1 (fun _ : Nat => 2) (fun _ => 1) [7] = 1 := by
  rcases breakeven_first_threshold 1 (fun _ : Nat => 2) (fun _ => 1) [7]
    with ⟨h1, _⟩ | ⟨k, hk1, hk2, hk3, _, _⟩
  · exact absurd h1 (by decide)
  · have hk : k = 1 := by simp only [List.length_cons, List.length_nil] at hk2; omega
    rw [hk] at hk3
    simpa using hk3

/-- C10: the break-even computation never returns 0: it returns -1 or an
index between 1 and the number of messages, and on the empty sequence it
returns -1 even with a dictionary cost of 0, since the threshold is only
checked after a message has been processed. -/
theorem breakeven_never_zero {α : Type} (dictCost : Nat)
    (plainSize dictSize : α → Nat) (samples : List α) :
    (calculateBreakeven dictCost plainSize dictSize samples = -1 ∨
      (1 ≤ calculateBreakeven dictCost plainSize dictSize samples ∧
        calculateBreakeven dictCost plainSize dictSize samples ≤ (samples.length : Int))) ∧
    calculateBreakeven 0 plainSize dictSize ([] : List α) = -1 := by
  constructor
  · rcases breakevenGo_spec (dictCost : Int) plainSize dictSize samples 0 0
      with ⟨h1, _⟩ | ⟨k, hk1, hk2, hk3, _, _⟩
    · exact Or.inl h1
    · right
      have heq : calculateBreakeven dictCost plainSize dictSize samples = (k : Int) := by
        simpa [calculateBreakeven] using hk3
      rw [heq]
      exact ⟨by exact_mod_cast hk1, by exact_mod_cast hk2⟩
  · rfl

/-- C6: per-message savings are the signed difference of the plain and the
dictionary compressed sizes; a message on which the dictionary makes the
output larger strictly decreases the cumulative savings (never clamped to
zero), and this cumulative quantity is exactly what the break-even
computation thresholds. -/
theorem savings_signed_unclamped {α : Type} (plainSize dictSize : α → Nat)
    (samples : List α) (s : α) :
    cumSavings plainSize dictSize (samples ++ [s])
        = cumSavings plainSize dictSize samples
          + ((plainSize s : Int) - (dictSize s : Int)) ∧
    (plainSize s < dictSize s →
      cumSavings plainSize dictSize (samples ++ [s])
        < cumSavings plainSize dictSize samples) ∧
    ∀ dictCost : Nat,
      (dictCost : Int) ≤ cumSavings plainSize dictSize (samples ++ [s]) →
      calculateBreakeven dictCost plainSize dictSize (samples ++ [s]) ≠ -1 := by
  have happ : cumSavings plainSize dictSize (samples ++ [s])
      = cumSavings plainSize dictSize samples
        + ((plainSize s : Int) - (dictSize s : Int)) := by
    simp [cumSavings, List.foldl_append]
  refine ⟨happ, ?_, ?_⟩
  · intro h
    have hlt : (plainSize s : Int) < (dictSize s : Int) := by exact_mod_cast h
    rw [happ]
    linarith
  · intro dictCost hge heq
    rcases breakevenGo_spec (dictCost : Int) plainSize dictSize (samples ++ [s]) 0 0
      with ⟨h1, h2⟩ | ⟨k, hk1, hk2, hk3, hk4, hk5⟩
    · have h3 := h2 (samples ++ [s]).length
        (by simp only [List.length_append, List.length_cons, List.length_nil]; omega)
        (le_refl _)
      rw [List.take_length] at h3
      simp only [zero_add] at h3
      linarith
    · simp only [calculateBreakeven] at heq
      rw [heq] at hk3
      have hcast : ((0 + k : Nat) : Int) = -1 := hk3.symm
      omega

/-- Witness for C6: with plain size 5 and dictionary size 7 the cumulative
savings strictly decrease when the message is appended. -/
theorem savings_signed_unclamped_witness :
    cumSavings (fun _ : Nat => 5) (fun _ => 7) ([0] ++ [1])
      < cumSavings (fun _ : Nat => 5) (fun _ => 7) [0] :=
  (savings_signed_unclamped (fun _ : Nat => 5) (fun _ => 7) [0] 1).2.1 (by omega)

/-- C7: each processed message adds its raw length and its three
compressed lengths to the running totals, so every total is monotonically
non-decreasing as messages are processed. -/
theorem totals_monotone (gzipLen plainLen dictLen : List Nat → Nat)
    (pre : List (List Nat)) (s : List Nat) :
    (runTotals gzipLen plainLen dictLen pre).totalUncompressed
        ≤ (runTotals gzipLen plainLen dictLen (pre ++ [s])).totalUncompressed ∧
    (runTotals gzipLen plainLen dictLen pre).totalGzip
        ≤ (runTotals gzipLen plainLen dictLen (pre ++ [s])).totalGzip ∧
    (runTotals gzipLen plainLen dictLen pre).totalZstd
        ≤ (runTotals gzipLen plainLen dictLen (pre ++ [s])).totalZstd ∧
    (runTotals gzipLen plainLen dictLen pre).totalZstdDict
        ≤ (runTotals gzipLen plainLen dictLen (pre ++ [s])).totalZstdDict := by
  have h : runTotals gzipLen plainLen dictLen (pre ++ [s])
      = stepTotals gzipLen plainLen dictLen (runTotals gzipLen plainLen dictLen pre) s := by
    simp [runTotals, List.foldl_append]
  rw [h]
  refine ⟨?_, ?_, ?_, ?_⟩ <;> simp [stepTotals]

/-- C8: a Read on the pooled streaming decoder forwards the underlying
read result unchanged and returns the decoder instance to the pool exactly
when the read signalled io.EOF; on any other outcome the pool is left
untouched. -/
theorem pooled_decoder_return_iff_eof (n : Nat) (err : Option ReadErr)
    (dec : Decoder) (pool : List Decoder) :
    (pooledDecoderRead n err dec pool).1 = (n, err) ∧
    ((pooledDecoderRead n err dec pool).2 = pool ++ [dec] ↔ err = some ReadErr.eof) ∧
    (err ≠ some ReadErr.eof → (pooledDecoderRead n err dec pool).2 = pool) := by
  by_cases h : err = some ReadErr.eof
  · refine ⟨rfl, ?_, ?_⟩ <;> simp [pooledDecoderRead, h]
  · have hne : pool ≠ pool ++ [dec] := by
      intro hh
      have hlen := congrArg List.length hh
      simp at hlen
    refine ⟨rfl, ?_, ?_⟩
    · simp [pooledDecoderRead, h, hne]
    · intro _
      simp [pooledDecoderRead, h]

/-- Witness for C8: an EOF read returns the instance to the pool; a
non-EOF read leaves the pool unchanged. -/
theorem pooled_decoder_return_iff_eof_witness :
    (pooledDecoderRead 0 (some ReadErr.eof) ⟨none⟩ []).2 = [⟨none⟩] ∧
    (pooledDecoderRead 3 (some (ReadErr.other 0)) ⟨none⟩ []).2 = [] ∧
    (pooledDecoderRead 3 none ⟨none⟩ []).2 = [] := by
  refine ⟨?_, ?_, ?_⟩
  · exact ((pooled_decoder_return_iff_eof 0 (some ReadErr.eof) ⟨none⟩ []).2.1).mpr rfl
  · exact (pooled_decoder_return_iff_eof 3 (some (ReadErr.other 0)) ⟨none⟩ []).2.2 (by decide)
  · exact (pooled_decoder_return_iff_eof 3 none ⟨none⟩ []).2.2 (by decide)

/-- C5: training rejects degenerate corpora: the empty sample list and any
sample list below the minimum count (9 samples) fail with an error, while
a 50-sample corpus yields a non-empty dictionary no larger than the
configured maximum size. -/
theorem train_rejects_degenerate_corpora :
    TrainDict [] none = .error ZErr.configuration ∧
    (∀ (samples : List (List Nat)) (opts : Option TrainDictOptions),
      samples.length = 9 → TrainDict samples opts = .error ZErr.configuration) ∧
    (∀ (samples : List (List Nat)) (m : Nat), samples.length = 50 → 1 ≤ m →
      ∃ d, TrainDict samples (some ⟨m, 0, 0⟩) = .ok d ∧ d ≠ [] ∧ d.length ≤ m) := by
  refine ⟨rfl, ?_, ?_⟩
  · intro samples opts hlen
    have h0 : ¬ samples.length = 0 := by omega
    simp [TrainDict, h0, buildZstdDict, hlen, minTrainingSamples]
  · intro samples m hlen hm
    have h0 : ¬ samples.length = 0 := by omega
    have h10 : ¬ samples.length < minTrainingSamples := by
      simp only [minTrainingSamples]; omega
    have hm0 : 0 < m := hm
    refine ⟨(zstdDictMagic ++ samples.foldr (fun s acc => s ++ acc) []).take m, ?_, ?_, ?_⟩
    · simp [TrainDict, h0, buildZstdDict, h10, hm0]
    · intro hnil
      rcases List.take_eq_nil_iff.mp hnil with h | h
      · omega
      · exact absurd (List.append_eq_nil.mp h).1 (by simp [zstdDictMagic])
    · simp only [List.length_take]
      exact min_le_left _ _

/-- Witness for C5: nine empty samples are rejected; fifty one-byte
samples train to a non-empty dictionary of at most 2048 bytes. -/
theorem train_rejects_degenerate_corpora_witness :
    TrainDict (List.replicate 9 ([] : List Nat)) none = .error ZErr.configuration ∧
    ∃ d, TrainDict (List.replicate 50 ([0] : List Nat)) (some ⟨2048, 0, 0⟩)
        = .ok d ∧ d ≠ [] ∧ d.length ≤ 2048 := by
  constructor
  · exact train_rejects_degenerate_corpora.2.1 _ none (by simp)
  · exact train_rejects_degenerate_corpora.2.2 _ 2048 (by simp) (by omega)

/-- C1: for every byte buffer (the empty buffer included) and every
compressor configuration — dictionary-free or bound to a loadable
dictionary — with well-formed engine pools in any state, Compress
succeeds and Decompress of its output returns exactly the input. -/
theorem roundtrip_compress_decompress (d : Option (List Nat)) (b : List Nat)
    (epool : List Encoder) (dpool : List Decoder)
    (hd : dictOK d = true) (he : encPoolWF d epool) (hdec : decPoolWF d dpool) :
    ∃ f epool' dpool',
      Compressor.Compress ⟨d⟩ epool b = (.ok f, epool') ∧
      Compressor.Decompress ⟨d⟩ dpool f = (.ok b, dpool') := by
  obtain ⟨cc, rest, hcomp⟩ := compress_ok d epool b hd he
  obtain ⟨rest2, hdecomp⟩ := decompress_gets d dpool (Encoder.encodeAll ⟨d, cc⟩ b) hd hdec
  exact ⟨_, rest, rest2, hcomp, by rw [hdecomp, decodeAll_encodeAll]; rfl⟩

/-- Witness for C1: the round trip at a concrete dictionary-bound
compressor with empty pools, on the empty buffer and on a 3-byte buffer. -/
theorem roundtrip_compress_decompress_witness :
    (∃ f epool' dpool',
      Compressor.Compress ⟨some goodDictA⟩ [] [1, 2, 3] = (.ok f, epool') ∧
      Compressor.Decompress ⟨some goodDictA⟩ [] f = (.ok [1, 2, 3], dpool')) ∧
    (∃ f epool' dpool',
      Compressor.Compress ⟨none⟩ [] [] = (.ok f, epool') ∧
      Compressor.Decompress ⟨none⟩ [] f = (.ok [], dpool')) :=
  ⟨roundtrip_compress_decompress (some goodDictA) [1, 2, 3] [] []
      (by decide) (by simp [encPoolWF]) (by simp [decPoolWF]),
    roundtrip_compress_decompress none [] [] []
      (by decide) (by simp [encPoolWF]) (by simp [decPoolWF])⟩

/-- C2: code bug at the failing input — a codec holding malformed
dictionary bytes (dictionary [1], empty pool).  The pool New returns a nil
interface and the Get type assertion panics before the nil guard, so
Compress, Decompress and the gRPC codec Compress all panic instead of
escalating a configuration error to the caller as the claim (and the
propagation policy of the spec) requires.  The pool-miss half of the claim
does hold: with a loadable dictionary, an empty pool is resolved by
transparent direct construction, result-identical to the pooled path. -/
theorem construction_failure_panics :
    (Compressor.Compress ⟨some [1]⟩ [] [5]).1 = .panicked ∧
    (Compressor.Decompress ⟨some [1]⟩ [] ⟨none, 1, [0]⟩).1 = .panicked ∧
    Zstd.compressBytes ⟨NameZstdDict, some [1]⟩ [] [5] = .panicked ∧
    (∃ fr, Compressor.Compress ⟨some goodDictA⟩ [] [5]
        = (.ok fr, [⟨some goodDictA, goMaxProcs⟩])) ∧
    (Compressor.Decompress ⟨some goodDictA⟩ [] ⟨none, 1, [0]⟩).1
        = (Compressor.Decompress ⟨some goodDictA⟩ [⟨some goodDictA⟩] ⟨none, 1, [0]⟩).1 := by
  refine ⟨?_, ?_, ?_, ⟨Encoder.encodeAll ⟨some goodDictA, goMaxProcs⟩ [5], ?_⟩, ?_⟩ <;>
    decide

/-- C4: a frame compressed under dictionary A, decompressed by a codec
configured with a different dictionary B, is rejected with a
dictionary-mismatch error at the frame identifier check, before the
payload is interpreted — never returning garbled output. -/
theorem dict_mismatch_rejected (A B b : List Nat)
    (epool : List Encoder) (dpool : List Decoder)
    (hAB : A ≠ B) (hA : dictOK (some A) = true) (hB : dictOK (some B) = true)
    (he : encPoolWF (some A) epool) (hdec : decPoolWF (some B) dpool) :
    ∃ f epool', Compressor.Compress ⟨some A⟩ epool b = (.ok f, epool') ∧
      (Compressor.Decompress ⟨some B⟩ dpool f).1 = .error ZErr.dictionaryMismatch := by
  obtain ⟨cc, rest, hcomp⟩ := compress_ok (some A) epool b hA he
  obtain ⟨rest2, hdecomp⟩ :=
    decompress_gets (some B) dpool (Encoder.encodeAll ⟨some A, cc⟩ b) hB hdec
  refine ⟨_, rest, hcomp, ?_⟩
  rw [hdecomp]
  simp [Decoder.decodeAll, Encoder.encodeAll, GoOutcome.ofExcept, hAB]

/-- Witness for C4: two concrete different well-formed dictionaries; the
frame produced under the first is rejected by a codec holding the
second. -/
theorem dict_mismatch_rejected_witness :
    ∃ f epool', Compressor.Compress ⟨some goodDictA⟩ [] [9] = (.ok f, epool') ∧
      (Compressor.Decompress ⟨some goodDictB⟩ [] f).1 = .error ZErr.dictionaryMismatch :=
  dict_mismatch_rejected goodDictA goodDictB [9] [] []
    (by decide) (by decide) (by decide) (by simp [encPoolWF]) (by simp [decPoolWF])

/-- C9: the dictionary-bound gRPC codec constructs its pooled encoders
with concurrency pinned to 1, so two Compress calls on the same bytes with
the same dictionary — whatever the pool states — produce the identical
frame, itself carrying concurrency 1. -/
theorem compress_deterministic_conc_pinned (d b : List Nat)
    (p1 p2 : List Encoder) (hd : dictOK (some d) = true)
    (h1 : ∀ e ∈ p1, e.dict = some d ∧ e.conc = 1)
    (h2 : ∀ e ∈ p2, e.dict = some d ∧ e.conc = 1) :
    ∃ out r1 r2,
      Zstd.compressBytes (NewZstdDict d) p1 b = .ok (out, r1) ∧
      Zstd.compressBytes (NewZstdDict d) p2 b = .ok (out, r2) ∧
      out.conc = 1 := by
  obtain ⟨r1, e1⟩ := zstd_compressBytes_wf d b p1 hd h1
  obtain ⟨r2, e2⟩ := zstd_compressBytes_wf d b p2 hd h2
  exact ⟨_, r1, r2, e1, e2, rfl⟩

/-- Witness for C9: two calls of the dictionary-bound codec on the same
bytes, one against an empty pool and one against a pool holding an
instance, produce the same frame with concurrency 1. -/
theorem compress_deterministic_conc_pinned_witness :
    ∃ out r1 r2,
      Zstd.compressBytes (NewZstdDict goodDictA) [] [3, 4] = .ok (out, r1) ∧
      Zstd.compressBytes (NewZstdDict goodDictA) [⟨some goodDictA, 1⟩] [3, 4]
        = .ok (out, r2) ∧
      out.conc = 1 :=
  compress_deterministic_conc_pinned goodDictA [3, 4] [] [⟨some goodDictA, 1⟩]
    (by decide) (by decide) (by decide)

end ZstdDict
